import Mathlib

/-!
A shallow embedding of the bencode deserializer of `src/de.rs` together with
its error type from `src/error.rs`.  Bytes are modelled as `Nat` (the numeric
value of the `u8`), the input buffer as `List Nat`, and the mutable
`Deserializer` state as explicit state passing: every operation returns its
result together with the remaining input.  The 64-bit machine integers of the
source (`i64`, `usize`) are modelled as `Nat` bit patterns reduced modulo
`2 ^ 64`, interpreted back into `Int` by two's complement where the source
produces an `i64`.
-/

namespace Bencode

/-- The error enum of `src/error.rs`; every variant keeps its source name. -/
inductive Error where
  | Message (msg : String)
  | NegativeZero
  | NonASCII
  | ExpectedInteger
  | ExpectedI
  | ExpectedE
  | ZeroLength
  | NegativeLength
  | ExpectedColon
  | NonLexicographical
  | ExpectedDict
  | ExpectedDictEnd
  | ExpectedList
  | ExpectedListEnd
  | TrailingCharacters
  | Eof
  | Syntax
  deriving DecidableEq, Repr

/-- The reserved error variants of `src/error.rs` that the spec says are
declared for a future validation policy and raised by no parser. -/
def Error.isReserved : Error → Bool
  | .NegativeZero | .NonASCII | .ZeroLength | .NegativeLength
  | .NonLexicographical => true
  | _ => false

/-- Result of an operation of the deserializer.  `ok` and `err` are the two
sides of the Rust `Result`; `fault` marks the one place where the source can
leave the typed-error discipline, the unguarded slice `&self.input[..length]`
in `parse_byte_array`, which panics when `length` exceeds the remaining
buffer; `out` is fuel exhaustion of the embedding's recursion fuel (the
source recurses on the call stack without a bound) and corresponds to no
behaviour of the source. -/
inductive RRes (α : Type) where
  | ok (a : α)
  | err (e : Error)
  | fault
  | out
  deriving DecidableEq, Repr

/-- The modulus of the source's 64-bit machine arithmetic. -/
def U64 : Nat := 2 ^ 64

/-- Two's-complement reading of a 64-bit pattern, as Rust reads an `i64`. -/
def toI64 (n : Nat) : Int :=
  if n < 2 ^ 63 then (n : Int) else (n : Int) - (2 ^ 64 : Nat)

/-- ASCII digit test, the `b'0'..=b'9'` ranges of `src/de.rs`. -/
def isDigitByte (b : Nat) : Bool := 48 ≤ b && b ≤ 57

/-- `Deserializer::peek_byte` (`src/de.rs:34`): the next byte without
consuming it, `Eof` on empty input. -/
def peek_byte : List Nat → Except Error Nat
  | [] => .error .Eof
  | b :: _ => .ok b

/-- `Deserializer::next_byte` (`src/de.rs:41`): the next byte, consumed.  On
`Eof` the input is unchanged (the source advances only after a successful
peek). -/
def next_byte : List Nat → Except Error Nat × List Nat
  | [] => (.error .Eof, [])
  | b :: rest => (.ok b, rest)

/-- The digit-consuming loop of `Deserializer::parse_unsigned`
(`src/de.rs:57-68`): `int *= 10; int += b - b'0'` on each leading ASCII
digit, in wrapping 64-bit arithmetic, stopping at the first non-digit or at
end of input. -/
def parse_unsigned_loop (int : Nat) : List Nat → Nat × List Nat
  | [] => (int, [])
  | b :: rest =>
    if isDigitByte b then parse_unsigned_loop ((int * 10 + (b - 48)) % U64) rest
    else (int, b :: rest)

/-- `Deserializer::parse_unsigned` (`src/de.rs:47-69`): the first byte must be
an ASCII digit (`ExpectedInteger` otherwise, `Eof` on empty input; the byte is
consumed either way), then a maximal run of further digits is consumed and
accumulated. -/
def parse_unsigned : List Nat → Except Error Nat × List Nat
  | [] => (.error .Eof, [])
  | b :: rest =>
    if isDigitByte b then
      let p := parse_unsigned_loop (b - 48) rest
      (.ok p.1, p.2)
    else (.error .ExpectedInteger, rest)

/-- `Deserializer::parse_signed` (`src/de.rs:71-88`): an optional leading `-`
is consumed, the magnitude is read by `parse_unsigned` in 64-bit arithmetic,
and the result is negated (wrapping) when the sign was present; the final
pattern is read as an `i64`. -/
def parse_signed (input : List Nat) : Except Error Int × List Nat :=
  match input with
  | [] => (.error .Eof, [])
  | b :: rest =>
    let s := if b = 45 then (true, rest) else (false, b :: rest)
    match parse_unsigned s.2 with
    | (.ok u, rest2) =>
      (.ok (toI64 (if s.1 then (U64 - u) % U64 else u)), rest2)
    | (.error e, rest2) => (.error e, rest2)

/-- `Deserializer::parse_num` (`src/de.rs:90-104`): a leading `i` is required
(`ExpectedI` otherwise), then the signed body is parsed, then the following
byte is consumed: on `e` the body's result (value or error) is returned, on
any other byte `ExpectedE`, and `Eof` when no byte remains. -/
def parse_num (input : List Nat) : Except Error Int × List Nat :=
  match input with
  | [] => (.error .Eof, [])
  | b :: rest =>
    if b = 105 then
      let p := parse_signed rest
      match p.2 with
      | [] => (.error .Eof, [])
      | c :: rest2 => if c = 101 then (p.1, rest2) else (.error .ExpectedE, rest2)
    else (.error .ExpectedI, rest)

/-- `Deserializer::parse_byte_array` (`src/de.rs:106-115`): an unsigned length,
then `:` (`ExpectedColon` otherwise), then exactly `length` bytes taken off the
input.  The source's slice `&self.input[..length]` carries no bound check;
when `length` exceeds the remaining input it panics, modelled by the `fault`
branch. -/
def parse_byte_array (input : List Nat) : RRes (List Nat) × List Nat :=
  match parse_unsigned input with
  | (.error e, rest) => (.err e, rest)
  | (.ok length, rest) =>
    match rest with
    | [] => (.err .Eof, [])
    | c :: rest2 =>
      if c = 58 then
        if length ≤ rest2.length then
          (.ok (rest2.take length), rest2.drop length)
        else (.fault, rest2)
      else (.err .ExpectedColon, rest2)

/-- A decoded bencode node, as the visitor events of `src/de.rs` expose it:
`visit_i64`, `visit_borrowed_bytes`, `visit_seq`, `visit_map`. -/
inductive Bvalue where
  | int (n : Int)
  | bytes (bs : List Nat)
  | list (items : List Bvalue)
  | dict (entries : List (Bvalue × Bvalue))

/-- `deserialize_i64` (`src/de.rs:219-224`): `visitor.visit_i64(self.parse_num()?)`. -/
def deserialize_i64 (input : List Nat) : RRes Bvalue × List Nat :=
  match parse_num input with
  | (.ok n, rest) => (.ok (.int n), rest)
  | (.error e, rest) => (.err e, rest)

/-- `deserialize_bytes` (`src/de.rs:226-231`):
`visitor.visit_borrowed_bytes(self.parse_byte_array()?)`. -/
def deserialize_bytes (input : List Nat) : RRes Bvalue × List Nat :=
  match parse_byte_array input with
  | (.ok bs, rest) => (.ok (.bytes bs), rest)
  | (.err e, rest) => (.err e, rest)
  | (.fault, rest) => (.fault, rest)
  | (.out, rest) => (.out, rest)

mutual

/-- `deserialize_any` (`src/de.rs:206-217`): peek the next byte and dispatch —
`i` to the integer path, an ASCII digit to the byte-string path, `l` to the
list path, `d` to the dictionary path, anything else is a `Syntax` error. -/
def deserialize_any : Nat → List Nat → RRes Bvalue × List Nat
  | 0, input => (.out, input)
  | fuel + 1, input =>
    match peek_byte input with
    | .error e => (.err e, input)
    | .ok b =>
      if b = 105 then deserialize_i64 input
      else if isDigitByte b then deserialize_bytes input
      else if b = 108 then deserialize_seq fuel input
      else if b = 100 then deserialize_map fuel input
      else (.err .Syntax, input)

/-- `deserialize_seq` (`src/de.rs:233-247`): consume one byte, which must be
`l` (`ExpectedList` otherwise); let the sequence driver collect the elements;
then consume one byte, which must be `e` (`ExpectedListEnd` otherwise). -/
def deserialize_seq : Nat → List Nat → RRes Bvalue × List Nat
  | 0, input => (.out, input)
  | fuel + 1, input =>
    match next_byte input with
    | (.error e, rest) => (.err e, rest)
    | (.ok b, rest) =>
      if b = 108 then
        match seq_items fuel [] rest with
        | (.ok vs, rest2) =>
          (match next_byte rest2 with
           | (.error e, rest3) => (.err e, rest3)
           | (.ok c, rest3) =>
             if c = 101 then (.ok (.list vs), rest3)
             else (.err .ExpectedListEnd, rest3))
        | (.err e, rest2) => (.err e, rest2)
        | (.fault, rest2) => (.fault, rest2)
        | (.out, rest2) => (.out, rest2)
      else (.err .ExpectedList, rest)

/-- The pull loop of `SeqReader::next_element_seed` (`src/de.rs:294-307`) as
driven by a sequence visitor: peek for `e` — if found, stop without consuming
it; otherwise decode one element by re-entering the engine and pull again. -/
def seq_items : Nat → List Bvalue → List Nat → RRes (List Bvalue) × List Nat
  | 0, _, input => (.out, input)
  | fuel + 1, acc, input =>
    match peek_byte input with
    | .error e => (.err e, input)
    | .ok b =>
      if b = 101 then (.ok acc, input)
      else
        match deserialize_any fuel input with
        | (.ok v, rest) => seq_items fuel (acc ++ [v]) rest
        | (.err e, rest) => (.err e, rest)
        | (.fault, rest) => (.fault, rest)
        | (.out, rest) => (.out, rest)

/-- `deserialize_map` (`src/de.rs:249-263`): consume one byte, which must be
`d` (`ExpectedDict` otherwise); let the map driver collect the entries; then
consume one byte, which must be `e` (`ExpectedDictEnd` otherwise). -/
def deserialize_map : Nat → List Nat → RRes Bvalue × List Nat
  | 0, input => (.out, input)
  | fuel + 1, input =>
    match next_byte input with
    | (.error e, rest) => (.err e, rest)
    | (.ok b, rest) =>
      if b = 100 then
        match map_items fuel [] rest with
        | (.ok ps, rest2) =>
          (match next_byte rest2 with
           | (.error e, rest3) => (.err e, rest3)
           | (.ok c, rest3) =>
             if c = 101 then (.ok (.dict ps), rest3)
             else (.err .ExpectedDictEnd, rest3))
        | (.err e, rest2) => (.err e, rest2)
        | (.fault, rest2) => (.fault, rest2)
        | (.out, rest2) => (.out, rest2)
      else (.err .ExpectedDict, rest)

/-- The pull loop of `MapReader` (`src/de.rs:319-339`) as driven by a map
visitor: `next_key_seed` peeks for `e` — if found, stop without consuming it;
otherwise decode one key by re-entering the engine, then `next_value_seed`
unconditionally decodes one value, and the visitor pulls again. -/
def map_items :
    Nat → List (Bvalue × Bvalue) → List Nat →
      RRes (List (Bvalue × Bvalue)) × List Nat
  | 0, _, input => (.out, input)
  | fuel + 1, acc, input =>
    match peek_byte input with
    | .error e => (.err e, input)
    | .ok b =>
      if b = 101 then (.ok acc, input)
      else
        match deserialize_any fuel input with
        | (.ok k, rest) =>
          (match deserialize_any fuel rest with
           | (.ok v, rest2) => map_items fuel (acc ++ [(k, v)]) rest2
           | (.err e, rest2) => (.err e, rest2)
           | (.fault, rest2) => (.fault, rest2)
           | (.out, rest2) => (.out, rest2))
        | (.err e, rest) => (.err e, rest)
        | (.fault, rest) => (.fault, rest)
        | (.out, rest) => (.out, rest)

end

/-- The entry methods of the `serde::de::Deserializer` impl
(`src/de.rs:203-282`): one constructor per `deserialize_*` method the caller's
type can invoke.  `rI64`, `rBytes`, `rSeq` and `rMap` have their own bodies;
everything in the `forward_to_deserialize_any!` list (`src/de.rs:277-281`) is
forwarded to `deserialize_any`. -/
inductive Req where
  | rAny | rI64 | rBytes | rSeq | rMap
  | rBool | rI8 | rI16 | rI32 | rI128
  | rU8 | rU16 | rU32 | rU64 | rU128
  | rF32 | rF64 | rChar | rStr | rString
  | rByteBuf | rOption | rUnit | rUnitStruct | rNewtypeStruct
  | rTuple | rTupleStruct | rStruct | rIdentifier | rIgnoredAny | rEnum
  deriving DecidableEq, Repr

/-- Whether the entry method is produced by `forward_to_deserialize_any!`
(`src/de.rs:277-281`) rather than written out. -/
def Req.forwarded : Req → Bool
  | .rAny | .rI64 | .rBytes | .rSeq | .rMap => false
  | _ => true

/-- One step of `T::deserialize(&mut deserializer)`: the entry method chosen
by the caller's type, applied to the input. -/
def deserialize_req (fuel : Nat) (req : Req) (input : List Nat) :
    RRes Bvalue × List Nat :=
  match req with
  | .rI64 => deserialize_i64 input
  | .rBytes => deserialize_bytes input
  | .rSeq => deserialize_seq fuel input
  | .rMap => deserialize_map fuel input
  | _ => deserialize_any fuel input

/-- Fuel that suffices for any input of the given length: at most three
engine layers run between two consumed bytes. -/
def fuelFor (input : List Nat) : Nat := 3 * input.length + 3

/-- The top-level `from_bytes` (`src/de.rs:19-30`): run the target type's
entry method on the buffer; if the decode succeeds and input remains, fail
with `TrailingCharacters`, otherwise return its outcome. -/
def from_bytes (req : Req) (input : List Nat) : RRes Bvalue :=
  match deserialize_req (fuelFor input) req input with
  | (.ok v, rest) => if rest.isEmpty then .ok v else .err .TrailingCharacters
  | (.err e, _) => .err e
  | (.fault, _) => .fault
  | (.out, _) => .out

/-- Decimal value of a digit run, as plain (unbounded) arithmetic. -/
def digitsVal (ds : List Nat) : Nat :=
  ds.foldl (fun a d => a * 10 + (d - 48)) 0

/-- Decimal value of a digit run as `parse_unsigned` accumulates it: in
wrapping 64-bit arithmetic. -/
def accumVal (ds : List Nat) : Nat :=
  ds.foldl (fun a d => (a * 10 + (d - 48)) % U64) 0

/-- Whether the input does not start with an ASCII digit: the boundary at
which `parse_unsigned`'s digit loop stops. -/
def noLeadingDigit : List Nat → Bool
  | [] => true
  | c :: _ => !isDigitByte c

/-! Helper lemmas about the digit-accumulation arithmetic. -/

lemma foldl_digits_ge (ds : List Nat) :
    ∀ a : Nat, a ≤ ds.foldl (fun a d => a * 10 + (d - 48)) a := by
  induction ds with
  | nil => intro a; simp
  | cons d ds ih =>
    intro a
    calc a ≤ a * 10 + (d - 48) := by omega
    _ ≤ _ := by simpa using ih (a * 10 + (d - 48))

lemma foldl_digits_mod_eq (ds : List Nat) :
    ∀ a : Nat, ds.foldl (fun a d => a * 10 + (d - 48)) a < U64 →
      ds.foldl (fun a d => (a * 10 + (d - 48)) % U64) a =
        ds.foldl (fun a d => a * 10 + (d - 48)) a := by
  induction ds with
  | nil => intro a _; simp
  | cons d ds ih =>
    intro a h
    simp only [List.foldl_cons] at h ⊢
    have hstep : a * 10 + (d - 48) < U64 :=
      lt_of_le_of_lt (foldl_digits_ge ds (a * 10 + (d - 48))) h
    rw [Nat.mod_eq_of_lt hstep]
    exact ih _ h

lemma accumVal_eq_digitsVal (ds : List Nat) (h : digitsVal ds < U64) :
    accumVal ds = digitsVal ds :=
  foldl_digits_mod_eq ds 0 h

/-! Helper lemmas about the primitive parsers on well-formed token shapes. -/

lemma parse_unsigned_loop_append (ds : List Nat) :
    ∀ (int : Nat) (rest : List Nat), (∀ d ∈ ds, isDigitByte d = true) →
      noLeadingDigit rest = true →
      parse_unsigned_loop int (ds ++ rest) =
        (ds.foldl (fun a d => (a * 10 + (d - 48)) % U64) int, rest) := by
  induction ds with
  | nil =>
    intro int rest _ hb
    cases rest with
    | nil => simp [parse_unsigned_loop]
    | cons c r =>
      simp only [noLeadingDigit, Bool.not_eq_true'] at hb
      simp [parse_unsigned_loop, hb]
  | cons d ds ih =>
    intro int rest hd hb
    have hdd : isDigitByte d = true := hd d (by simp)
    simp only [List.cons_append, parse_unsigned_loop, hdd, if_true, List.foldl_cons]
    exact ih _ rest (fun x hx => hd x (by simp [hx])) hb

lemma parse_unsigned_spec (ds rest : List Nat) (hne : ds ≠ [])
    (hd : ∀ d ∈ ds, isDigitByte d = true) (hb : noLeadingDigit rest = true) :
    parse_unsigned (ds ++ rest) = (.ok (accumVal ds), rest) := by
  cases ds with
  | nil => exact absurd rfl hne
  | cons d ds =>
    have hdd : isDigitByte d = true := hd d (by simp)
    have hd9 : d - 48 < U64 := by
      simp only [isDigitByte, Bool.and_eq_true, decide_eq_true_eq] at hdd
      simp only [U64]
      omega
    simp only [List.cons_append, parse_unsigned, hdd, if_true]
    rw [parse_unsigned_loop_append ds (d - 48) rest
      (fun x hx => hd x (by simp [hx])) hb]
    simp only [accumVal, List.foldl_cons, Nat.zero_mul, Nat.zero_add]
    rw [Nat.mod_eq_of_lt hd9]

lemma isDigitByte_ne_45 {d : Nat} (h : isDigitByte d = true) : d ≠ 45 := by
  simp only [isDigitByte, Bool.and_eq_true, decide_eq_true_eq] at h
  omega

lemma parse_signed_spec_pos (ds rest : List Nat) (hne : ds ≠ [])
    (hd : ∀ d ∈ ds, isDigitByte d = true) (hb : noLeadingDigit rest = true) :
    parse_signed (ds ++ rest) = (.ok (toI64 (accumVal ds)), rest) := by
  cases ds with
  | nil => exact absurd rfl hne
  | cons d ds =>
    have h45 : d ≠ 45 := isDigitByte_ne_45 (hd d (by simp))
    have hpu := parse_unsigned_spec (d :: ds) rest hne hd hb
    simp only [List.cons_append] at hpu ⊢
    simp [parse_signed, h45, hpu]

lemma parse_signed_spec_neg (ds rest : List Nat) (hne : ds ≠ [])
    (hd : ∀ d ∈ ds, isDigitByte d = true) (hb : noLeadingDigit rest = true) :
    parse_signed (45 :: ds ++ rest) =
      (.ok (toI64 ((U64 - accumVal ds) % U64)), rest) := by
  have hpu := parse_unsigned_spec ds rest hne hd hb
  simp [parse_signed, hpu]

lemma toI64_small (n : Nat) (h : n < 2 ^ 63) : toI64 n = (n : Int) := by
  unfold toI64
  rw [if_pos h]

lemma toI64_wrap_neg (v : Nat) (h : v ≤ 2 ^ 63) :
    toI64 ((U64 - v) % U64) = -(v : Int) := by
  rcases Nat.eq_zero_or_pos v with hv | hv
  · subst hv
    simp [toI64, U64]
  · have h1 : U64 - v < U64 := by
      simp only [U64]
      omega
    rw [Nat.mod_eq_of_lt h1]
    have h2 : ¬ U64 - v < 2 ^ 63 := by
      simp only [U64]
      omega
    have h3 : v ≤ U64 := by
      simp only [U64]
      omega
    simp only [toI64, h2, if_false]
    rw [Nat.cast_sub h3]
    simp only [U64]
    push_cast
    ring

lemma noLeadingDigit_e : noLeadingDigit (101 :: tail) = true := by
  simp [noLeadingDigit, isDigitByte]

lemma parse_num_spec_pos (ds tail : List Nat) (hne : ds ≠ [])
    (hd : ∀ d ∈ ds, isDigitByte d = true) :
    parse_num (105 :: ds ++ 101 :: tail) = (.ok (toI64 (accumVal ds)), tail) := by
  have hps := parse_signed_spec_pos ds (101 :: tail) hne hd noLeadingDigit_e
  simp [parse_num, hps]

lemma parse_num_spec_neg (ds tail : List Nat) (hne : ds ≠ [])
    (hd : ∀ d ∈ ds, isDigitByte d = true) :
    parse_num (105 :: 45 :: ds ++ 101 :: tail) =
      (.ok (toI64 ((U64 - accumVal ds) % U64)), tail) := by
  have hps := parse_signed_spec_neg ds (101 :: tail) hne hd noLeadingDigit_e
  simp only [List.cons_append] at hps
  simp [parse_num, hps]

/-! Helper lemmas for the error taxonomy: which variants each operation can
produce. -/

lemma parse_unsigned_err {input : List Nat} {e : Error} {rest : List Nat}
    (h : parse_unsigned input = (.error e, rest)) : e.isReserved = false := by
  cases input with
  | nil =>
    simp only [parse_unsigned, Prod.mk.injEq, Except.error.injEq] at h
    rw [← h.1]
    rfl
  | cons b rest' =>
    by_cases hb : isDigitByte b = true
    · simp [parse_unsigned, hb] at h
    · simp only [parse_unsigned, Bool.not_eq_true] at h hb
      simp only [hb, Bool.false_eq_true, if_false, Prod.mk.injEq,
        Except.error.injEq] at h
      rw [← h.1]
      rfl

lemma parse_signed_err {input : List Nat} {e : Error} {rest : List Nat}
    (h : parse_signed input = (.error e, rest)) : e.isReserved = false := by
  cases input with
  | nil =>
    simp only [parse_signed, Prod.mk.injEq, Except.error.injEq] at h
    rw [← h.1]
    rfl
  | cons b rest' =>
    simp only [parse_signed] at h
    rcases hpu : parse_unsigned (if b = 45 then ((true : Bool), rest')
        else (false, b :: rest')).2 with ⟨r, rest2⟩
    rw [hpu] at h
    cases r with
    | ok u => simp at h
    | error e' =>
      simp only [Prod.mk.injEq, Except.error.injEq] at h
      rw [← h.1]
      exact parse_unsigned_err hpu

lemma parse_num_err {input : List Nat} {e : Error} {rest : List Nat}
    (h : parse_num input = (.error e, rest)) : e.isReserved = false := by
  cases input with
  | nil =>
    simp only [parse_num, Prod.mk.injEq, Except.error.injEq] at h
    rw [← h.1]
    rfl
  | cons b rest' =>
    by_cases hb : b = 105
    · subst hb
      simp only [parse_num, eq_self_iff_true, if_true] at h
      rcases hps : parse_signed rest' with ⟨r, rest2⟩
      simp only [hps] at h
      cases rest2 with
      | nil =>
        simp only [Prod.mk.injEq, Except.error.injEq] at h
        rw [← h.1]
        rfl
      | cons c rest3 =>
        by_cases hc : c = 101
        · subst hc
          simp only [eq_self_iff_true, if_true] at h
          cases r with
          | ok n => simp at h
          | error e' =>
            simp only [Prod.mk.injEq, Except.error.injEq] at h
            rw [← h.1]
            exact parse_signed_err hps
        · simp only [if_neg hc, Prod.mk.injEq, Except.error.injEq] at h
          rw [← h.1]
          rfl
    · simp only [parse_num, if_neg hb, Prod.mk.injEq, Except.error.injEq] at h
      rw [← h.1]
      rfl

lemma parse_byte_array_err {input : List Nat} {e : Error} {rest : List Nat}
    (h : parse_byte_array input = (.err e, rest)) : e.isReserved = false := by
  simp only [parse_byte_array] at h
  rcases hpu : parse_unsigned input with ⟨r, rest1⟩
  rw [hpu] at h
  cases r with
  | error e' =>
    simp only [Prod.mk.injEq, RRes.err.injEq] at h
    rw [← h.1]
    exact parse_unsigned_err hpu
  | ok len =>
    cases rest1 with
    | nil =>
      simp only [Prod.mk.injEq, RRes.err.injEq] at h
      rw [← h.1]
      rfl
    | cons c rest2 =>
      by_cases hc : c = 58
      · subst hc
        simp only [if_pos rfl] at h
        by_cases hl : len ≤ rest2.length
        · simp [if_pos hl] at h
        · simp [if_neg hl] at h
      · simp only [if_neg hc, Prod.mk.injEq, RRes.err.injEq] at h
        rw [← h.1]
        rfl

lemma deserialize_i64_err {input : List Nat} {e : Error} {rest : List Nat}
    (h : deserialize_i64 input = (.err e, rest)) : e.isReserved = false := by
  simp only [deserialize_i64] at h
  rcases hpn : parse_num input with ⟨r, rest1⟩
  rw [hpn] at h
  cases r with
  | ok n => simp at h
  | error e' =>
    simp only [Prod.mk.injEq, RRes.err.injEq] at h
    rw [← h.1]
    exact parse_num_err hpn

lemma deserialize_bytes_err {input : List Nat} {e : Error} {rest : List Nat}
    (h : deserialize_bytes input = (.err e, rest)) : e.isReserved = false := by
  simp only [deserialize_bytes] at h
  rcases hpb : parse_byte_array input with ⟨r, rest1⟩
  rw [hpb] at h
  cases r with
  | ok bs => simp at h
  | err e' =>
    simp only [Prod.mk.injEq, RRes.err.injEq] at h
    rw [← h.1]
    exact parse_byte_array_err hpb
  | fault => simp at h
  | out => simp at h

lemma engine_err_not_reserved (fuel : Nat) :
    (∀ input e rest, deserialize_any fuel input = (.err e, rest) →
      e.isReserved = false) ∧
    (∀ input e rest, deserialize_seq fuel input = (.err e, rest) →
      e.isReserved = false) ∧
    (∀ acc input e rest, seq_items fuel acc input = (.err e, rest) →
      e.isReserved = false) ∧
    (∀ input e rest, deserialize_map fuel input = (.err e, rest) →
      e.isReserved = false) ∧
    (∀ acc input e rest, map_items fuel acc input = (.err e, rest) →
      e.isReserved = false) := by
  induction fuel with
  | zero =>
    refine ⟨?_, ?_, ?_, ?_, ?_⟩ <;> intros _ _ _ <;>
      first
      | (intro h
         simp [deserialize_any, deserialize_seq, deserialize_map] at h)
      | (intro _ h
         simp [seq_items, map_items] at h)
  | succ fuel ih =>
    obtain ⟨ihA, ihS, ihSI, ihM, ihMI⟩ := ih
    refine ⟨?_, ?_, ?_, ?_, ?_⟩
    · intro input e rest h
      cases input with
      | nil =>
        simp only [deserialize_any, peek_byte, Prod.mk.injEq,
          RRes.err.injEq] at h
        rw [← h.1]
        rfl
      | cons b rest' =>
        simp only [deserialize_any, peek_byte] at h
        by_cases hb1 : b = 105
        · rw [if_pos hb1] at h
          exact deserialize_i64_err h
        · rw [if_neg hb1] at h
          by_cases hb2 : isDigitByte b = true
          · rw [if_pos hb2] at h
            exact deserialize_bytes_err h
          · rw [if_neg hb2] at h
            by_cases hb3 : b = 108
            · rw [if_pos hb3] at h
              exact ihS _ _ _ h
            · rw [if_neg hb3] at h
              by_cases hb4 : b = 100
              · rw [if_pos hb4] at h
                exact ihM _ _ _ h
              · rw [if_neg hb4] at h
                simp only [Prod.mk.injEq, RRes.err.injEq] at h
                rw [← h.1]
                rfl
    · intro input e rest h
      cases input with
      | nil =>
        simp only [deserialize_seq, next_byte, Prod.mk.injEq,
          RRes.err.injEq] at h
        rw [← h.1]
        rfl
      | cons b rest' =>
        simp only [deserialize_seq, next_byte] at h
        by_cases hb : b = 108
        · rw [if_pos hb] at h
          rcases hsi : seq_items fuel [] rest' with ⟨r, rest2⟩
          simp only [hsi] at h
          cases r with
          | ok vs =>
            cases rest2 with
            | nil =>
              simp only [next_byte, Prod.mk.injEq, RRes.err.injEq] at h
              rw [← h.1]
              rfl
            | cons c rest3 =>
              by_cases hc : c = 101
              · subst hc
                simp only [next_byte, eq_self_iff_true, if_true] at h
                simp at h
              · simp only [next_byte, if_neg hc, Prod.mk.injEq,
                  RRes.err.injEq] at h
                rw [← h.1]
                rfl
          | err e' =>
            simp only [Prod.mk.injEq, RRes.err.injEq] at h
            rw [← h.1]
            exact ihSI _ _ _ _ hsi
          | fault => simp at h
          | out => simp at h
        · rw [if_neg hb] at h
          simp only [Prod.mk.injEq, RRes.err.injEq] at h
          rw [← h.1]
          rfl
    · intro acc input e rest h
      cases input with
      | nil =>
        simp only [seq_items, peek_byte, Prod.mk.injEq, RRes.err.injEq] at h
        rw [← h.1]
        rfl
      | cons b rest' =>
        simp only [seq_items, peek_byte] at h
        by_cases hb : b = 101
        · rw [if_pos hb] at h
          simp at h
        · rw [if_neg hb] at h
          rcases hda : deserialize_any fuel (b :: rest') with ⟨r, rest2⟩
          simp only [hda] at h
          cases r with
          | ok v => exact ihSI _ _ _ _ h
          | err e' =>
            simp only [Prod.mk.injEq, RRes.err.injEq] at h
            rw [← h.1]
            exact ihA _ _ _ hda
          | fault => simp at h
          | out => simp at h
    · intro input e rest h
      cases input with
      | nil =>
        simp only [deserialize_map, next_byte, Prod.mk.injEq,
          RRes.err.injEq] at h
        rw [← h.1]
        rfl
      | cons b rest' =>
        simp only [deserialize_map, next_byte] at h
        by_cases hb : b = 100
        · rw [if_pos hb] at h
          rcases hmi : map_items fuel [] rest' with ⟨r, rest2⟩
          simp only [hmi] at h
          cases r with
          | ok ps =>
            cases rest2 with
            | nil =>
              simp only [next_byte, Prod.mk.injEq, RRes.err.injEq] at h
              rw [← h.1]
              rfl
            | cons c rest3 =>
              by_cases hc : c = 101
              · subst hc
                simp only [next_byte, eq_self_iff_true, if_true] at h
                simp at h
              · simp only [next_byte, if_neg hc, Prod.mk.injEq,
                  RRes.err.injEq] at h
                rw [← h.1]
                rfl
          | err e' =>
            simp only [Prod.mk.injEq, RRes.err.injEq] at h
            rw [← h.1]
            exact ihMI _ _ _ _ hmi
          | fault => simp at h
          | out => simp at h
        · rw [if_neg hb] at h
          simp only [Prod.mk.injEq, RRes.err.injEq] at h
          rw [← h.1]
          rfl
    · intro acc input e rest h
      cases input with
      | nil =>
        simp only [map_items, peek_byte, Prod.mk.injEq, RRes.err.injEq] at h
        rw [← h.1]
        rfl
      | cons b rest' =>
        simp only [map_items, peek_byte] at h
        by_cases hb : b = 101
        · rw [if_pos hb] at h
          simp at h
        · rw [if_neg hb] at h
          rcases hk : deserialize_any fuel (b :: rest') with ⟨rk, restk⟩
          simp only [hk] at h
          cases rk with
          | ok k =>
            rcases hv : deserialize_any fuel restk with ⟨rv, restv⟩
            simp only [hv] at h
            cases rv with
            | ok v => exact ihMI _ _ _ _ h
            | err e' =>
              simp only [Prod.mk.injEq, RRes.err.injEq] at h
              rw [← h.1]
              exact ihA _ _ _ hv
            | fault => simp at h
            | out => simp at h
          | err e' =>
            simp only [Prod.mk.injEq, RRes.err.injEq] at h
            rw [← h.1]
            exact ihA _ _ _ hk
          | fault => simp at h
          | out => simp at h

/-! The claims. -/

/-- C1: for every input buffer and target type, the top-level `from_bytes`
succeeds only if exactly one bencode value consumes the entire buffer: when
the decoded value leaves bytes unconsumed the call returns
`TrailingCharacters`, and when it leaves none the call returns the decoded
value. -/
theorem c1_from_bytes_whole_buffer (req : Req) (input : List Nat) :
    (∀ v rest, deserialize_req (fuelFor input) req input = (.ok v, rest) →
       (rest = [] → from_bytes req input = .ok v) ∧
       (rest ≠ [] → from_bytes req input = .err .TrailingCharacters)) ∧
    (∀ v, from_bytes req input = .ok v →
       deserialize_req (fuelFor input) req input = (.ok v, [])) := by
  constructor
  · intro v rest h
    constructor
    · intro hrest
      subst hrest
      simp [from_bytes, h]
    · intro hrest
      cases rest with
      | nil => exact absurd rfl hrest
      | cons c cs => simp [from_bytes, h]
  · intro v h
    rcases hd : deserialize_req (fuelFor input) req input with ⟨r, rest⟩
    simp only [from_bytes, hd] at h
    cases r with
    | ok w =>
      cases rest with
      | nil =>
        simp only [List.isEmpty_nil, if_true] at h
        simp only [RRes.ok.injEq] at h
        subst h
        rfl
      | cons c cs => simp at h
    | err e => simp at h
    | fault => simp at h
    | out => simp at h

theorem c1_from_bytes_whole_buffer_witness :
    from_bytes .rI64 [105, 49, 101, 120] = .err .TrailingCharacters ∧
    from_bytes .rI64 [105, 49, 101] = .ok (.int 1) :=
  ⟨((c1_from_bytes_whole_buffer .rI64 [105, 49, 101, 120]).1 (.int 1) [120]
      rfl).2 (by decide),
   ((c1_from_bytes_whole_buffer .rI64 [105, 49, 101]).1 (.int 1) []
      rfl).1 rfl⟩

/-- C2: every valid integer literal `i<N>e` — an optional leading minus and a
nonempty run of ASCII decimal digits, within the `i64` width — decodes as an
integer to exactly `N`, including negative values. -/
theorem c2_integer_literal_value (ds : List Nat) (hne : ds ≠ [])
    (hd : ∀ d ∈ ds, isDigitByte d = true) :
    (digitsVal ds < 2 ^ 63 →
       from_bytes .rI64 (105 :: ds ++ [101]) = .ok (.int (digitsVal ds))) ∧
    (digitsVal ds ≤ 2 ^ 63 →
       from_bytes .rI64 (105 :: 45 :: ds ++ [101]) =
         .ok (.int (-(digitsVal ds : Int)))) := by
  have hU63 : (2 : Nat) ^ 63 < U64 := by norm_num [U64]
  constructor
  · intro hbound
    have hU : digitsVal ds < U64 := lt_trans hbound hU63
    have hpn := parse_num_spec_pos ds [] hne hd
    rw [accumVal_eq_digitsVal ds hU, toI64_small _ hbound] at hpn
    simp only [List.cons_append] at hpn ⊢
    simp [from_bytes, deserialize_req, deserialize_i64, hpn]
  · intro hbound
    have hU : digitsVal ds < U64 := lt_of_le_of_lt hbound hU63
    have hpn := parse_num_spec_neg ds [] hne hd
    rw [accumVal_eq_digitsVal ds hU, toI64_wrap_neg _ hbound] at hpn
    simp only [List.cons_append] at hpn ⊢
    simp [from_bytes, deserialize_req, deserialize_i64, hpn]

theorem c2_integer_literal_value_witness :
    from_bytes .rI64 [105, 49, 50, 51, 101] = .ok (.int 123) ∧
    from_bytes .rI64 [105, 45, 49, 50, 51, 101] = .ok (.int (-123)) := by
  constructor
  · have h := (c2_integer_literal_value [49, 50, 51] (by decide)
      (by decide)).1 (by decide)
    rw [show digitsVal [49, 50, 51] = 123 from rfl] at h
    exact h
  · have h := (c2_integer_literal_value [49, 50, 51] (by decide)
      (by decide)).2 (by decide)
    rw [show digitsVal [49, 50, 51] = 123 from rfl] at h
    exact h

/-- C3: the engine dispatches solely on the next wire byte — `i` to the
integer path, an ASCII digit to the byte-string path, `l` to the list path,
`d` to the dictionary path, any other byte to the `Syntax` error — and every
entry method outside the four direct ones is forwarded into this same
dispatch. -/
theorem c3_dispatch_by_leading_byte :
    (∀ req : Req, req.forwarded = true → ∀ fuel input,
        deserialize_req fuel req input = deserialize_any fuel input) ∧
    (∀ (fuel : Nat) (b : Nat) (rest : List Nat),
        deserialize_any (fuel + 1) (b :: rest) =
          if b = 105 then deserialize_i64 (b :: rest)
          else if isDigitByte b then deserialize_bytes (b :: rest)
          else if b = 108 then deserialize_seq fuel (b :: rest)
          else if b = 100 then deserialize_map fuel (b :: rest)
          else (.err .Syntax, b :: rest)) := by
  constructor
  · intro req h fuel input
    cases req <;> first | rfl | simp [Req.forwarded] at h
  · intro fuel b rest
    rfl

theorem c3_dispatch_by_leading_byte_witness :
    deserialize_req 1 .rBool [105] = deserialize_any 1 [105] :=
  c3_dispatch_by_leading_byte.1 .rBool rfl 1 [105]

/-- C4: `parse_unsigned` fails with `ExpectedInteger` whenever the first byte
is not an ASCII digit, and otherwise consumes exactly the maximal leading run
of ASCII digits — stopping at the first non-digit or at end of input — and
returns the accumulated value. -/
theorem c4_parse_unsigned_maximal_run :
    (∀ b rest, isDigitByte b = false →
        parse_unsigned (b :: rest) = (.error .ExpectedInteger, rest)) ∧
    (∀ ds rest, ds ≠ [] → (∀ d ∈ ds, isDigitByte d = true) →
        noLeadingDigit rest = true →
        parse_unsigned (ds ++ rest) = (.ok (accumVal ds), rest)) := by
  constructor
  · intro b rest h
    simp [parse_unsigned, h]
  · exact fun ds rest hne hd hb => parse_unsigned_spec ds rest hne hd hb

theorem c4_parse_unsigned_maximal_run_witness :
    parse_unsigned [52, 50, 120] = (.ok 42, [120]) ∧
    parse_unsigned [97, 98] = (.error .ExpectedInteger, [98]) := by
  constructor
  · have h := c4_parse_unsigned_maximal_run.2 [52, 50] [120] (by decide)
      (by decide) (by decide)
    rw [show accumVal [52, 50] = 42 from rfl] at h
    exact h
  · exact c4_parse_unsigned_maximal_run.1 97 [98] (by decide)

/-- C5: `parse_num` fails with `ExpectedI` when the first byte is not `i`;
otherwise it parses the signed body via `parse_signed` and then fails with
`ExpectedE` when the byte following the body is not `e`, returning the parsed
integer when it is `e`. -/
theorem c5_parse_num_delimiters :
    (∀ b rest, b ≠ 105 → parse_num (b :: rest) = (.error .ExpectedI, rest)) ∧
    (∀ body n c rest2, parse_signed body = (.ok n, c :: rest2) →
        (c = 101 → parse_num (105 :: body) = (.ok n, rest2)) ∧
        (c ≠ 101 → parse_num (105 :: body) = (.error .ExpectedE, rest2))) := by
  constructor
  · intro b rest h
    simp [parse_num, h]
  · intro body n c rest2 h
    constructor
    · intro hc
      subst hc
      simp [parse_num, h]
    · intro hc
      simp [parse_num, h, hc]

theorem c5_parse_num_delimiters_witness :
    parse_num [105, 49, 101] = (.ok 1, []) ∧
    parse_num [105, 49, 70] = (.error .ExpectedE, []) ∧
    parse_num [49, 50, 51] = (.error .ExpectedI, [50, 51]) :=
  ⟨(c5_parse_num_delimiters.2 [49, 101] 1 101 [] rfl).1 rfl,
   (c5_parse_num_delimiters.2 [49, 70] 1 70 [] rfl).2 (by decide),
   c5_parse_num_delimiters.1 49 [50, 51] (by decide)⟩

/-- C6: on an input `<L>:<bytes>` whose length prefix is a digit run of value
`L` with at least `L` bytes after the colon, `parse_byte_array` returns
exactly the next `L` bytes and advances the cursor past them; a missing colon
after the length yields `ExpectedColon`; `"5:hello"` decodes to the
byte-string `hello` and `"0:"` to the empty byte-string. -/
theorem c6_parse_byte_array_exact :
    (∀ ds bs, ds ≠ [] → (∀ d ∈ ds, isDigitByte d = true) →
        digitsVal ds < U64 → digitsVal ds ≤ bs.length →
        parse_byte_array (ds ++ 58 :: bs) =
          (.ok (List.take (digitsVal ds) bs), List.drop (digitsVal ds) bs)) ∧
    (∀ ds c rest, ds ≠ [] → (∀ d ∈ ds, isDigitByte d = true) →
        isDigitByte c = false → c ≠ 58 →
        parse_byte_array (ds ++ c :: rest) = (.err .ExpectedColon, rest)) ∧
    from_bytes .rBytes [53, 58, 104, 101, 108, 108, 111] =
      .ok (.bytes [104, 101, 108, 108, 111]) ∧
    from_bytes .rBytes [48, 58] = .ok (.bytes []) := by
  refine ⟨?_, ?_, rfl, rfl⟩
  · intro ds bs hne hd hU hlen
    have hb : noLeadingDigit (58 :: bs) = true := by
      simp [noLeadingDigit, isDigitByte]
    have hpu := parse_unsigned_spec ds (58 :: bs) hne hd hb
    rw [accumVal_eq_digitsVal ds hU] at hpu
    simp [parse_byte_array, hpu, hlen]
  · intro ds c rest hne hd hcd hc
    have hb : noLeadingDigit (c :: rest) = true := by
      simp [noLeadingDigit, hcd]
    have hpu := parse_unsigned_spec ds (c :: rest) hne hd hb
    simp [parse_byte_array, hpu, hc]

theorem c6_parse_byte_array_exact_witness :
    parse_byte_array [53, 58, 104, 101, 108, 108, 111] =
      (.ok [104, 101, 108, 108, 111], []) := by
  have h := c6_parse_byte_array_exact.1 [53] [104, 101, 108, 108, 111]
    (by decide) (by decide) (by decide) (by decide)
  rw [show digitsVal [53] = 5 from rfl] at h
  exact h

/-- C7: `parse_byte_array` does not bound-check the declared length against
the remaining buffer: on `"5:hi"` the out-of-range branch of the embedding is
reached (the source's slice `&self.input[..length]` is out of bounds), so the
function does not return a typed `Error` value there. -/
theorem c7_length_not_bound_checked :
    parse_byte_array [53, 58, 104, 105] = (.fault, [104, 105]) := rfl

/-- C8: on the list path, a first byte other than `l` fails with
`ExpectedList` (consuming the byte); each sequence-driver pull peeks the next
byte — on `e` it reports no more elements without consuming it, otherwise it
decodes one element by re-entering the engine; after exhaustion the engine
consumes the trailing byte and fails with `ExpectedListEnd` when it is not
`e`, returning the list when it is. -/
theorem c8_list_path :
    (∀ (fuel b : Nat) (rest : List Nat), b ≠ 108 →
        deserialize_seq (fuel + 1) (b :: rest) = (.err .ExpectedList, rest)) ∧
    (∀ (fuel : Nat) (acc : List Bvalue) (rest : List Nat),
        seq_items (fuel + 1) acc (101 :: rest) = (.ok acc, 101 :: rest)) ∧
    (∀ (fuel : Nat) (acc : List Bvalue) (b : Nat) (rest : List Nat) v rest2,
        b ≠ 101 → deserialize_any fuel (b :: rest) = (.ok v, rest2) →
        seq_items (fuel + 1) acc (b :: rest) =
          seq_items fuel (acc ++ [v]) rest2) ∧
    (∀ (fuel : Nat) (rest : List Nat) vs (c : Nat) (rest2 : List Nat),
        seq_items fuel [] rest = (.ok vs, c :: rest2) →
        (c = 101 →
          deserialize_seq (fuel + 1) (108 :: rest) = (.ok (.list vs), rest2)) ∧
        (c ≠ 101 →
          deserialize_seq (fuel + 1) (108 :: rest) =
            (.err .ExpectedListEnd, rest2))) := by
  refine ⟨?_, ?_, ?_, ?_⟩
  · intro fuel b rest h
    simp [deserialize_seq, next_byte, h]
  · intro fuel acc rest
    simp [seq_items, peek_byte]
  · intro fuel acc b rest v rest2 hb h
    simp [seq_items, peek_byte, hb, h]
  · intro fuel rest vs c rest2 h
    constructor
    · intro hc
      subst hc
      simp [deserialize_seq, next_byte, h]
    · intro hc
      simp [deserialize_seq, next_byte, h, hc]

theorem c8_list_path_witness :
    deserialize_seq 1 [120] = (.err .ExpectedList, []) ∧
    seq_items 1 [] [101] = (.ok [], [101]) := by
  constructor
  · exact c8_list_path.1 0 120 [] (by decide)
  · exact c8_list_path.2.1 0 [] []

/-- C9: no decoding operation of the core ever returns any of the reserved
error variants `NegativeZero`, `NonASCII`, `ZeroLength`, `NegativeLength` or
`NonLexicographical`; in particular `"i-0e"` is not rejected as a negative
zero and decodes to `0`. -/
theorem c9_reserved_errors_never_raised :
    (∀ fuel req input e rest,
        deserialize_req fuel req input = (.err e, rest) →
        e.isReserved = false) ∧
    from_bytes .rI64 [105, 45, 48, 101] = .ok (.int 0) := by
  constructor
  · intro fuel req input e rest h
    rcases engine_err_not_reserved fuel with ⟨hA, hS, _, hM, _⟩
    cases req <;>
      first
      | exact deserialize_i64_err h
      | exact deserialize_bytes_err h
      | exact hS _ _ _ h
      | exact hM _ _ _ h
      | exact hA _ _ _ h
  · rfl

theorem c9_reserved_errors_never_raised_witness :
    Error.isReserved .Syntax = false :=
  c9_reserved_errors_never_raised.1 1 .rAny [120] .Syntax [120] rfl

/-- C10: digit runs with redundant leading zeros are accepted wherever an
unsigned number is parsed, with their ordinary decimal value: `"i007e"`
decodes to `7`, `"i-007e"` to `-7`, `"05:hello"` to the byte-string `hello`,
and prepending a zero to a digit run never changes the accumulated value. -/
theorem c10_leading_zeros_accepted :
    from_bytes .rI64 [105, 48, 48, 55, 101] = .ok (.int 7) ∧
    from_bytes .rI64 [105, 45, 48, 48, 55, 101] = .ok (.int (-7)) ∧
    from_bytes .rBytes [48, 53, 58, 104, 101, 108, 108, 111] =
      .ok (.bytes [104, 101, 108, 108, 111]) ∧
    ∀ ds : List Nat, accumVal (48 :: ds) = accumVal ds := by
  refine ⟨rfl, rfl, rfl, ?_⟩
  intro ds
  simp [accumVal]

end Bencode
